import Mathlib

/-
Verification development for the note-collab backend: a shallow embedding of
the room/session manager (utils/roomManager.js) and the socket event handlers
(socketHandlers.js), with theorems checking the specified invariants and
behaviours against the embedded code.

Modelling conventions:
  - JS `Map` objects are embedded as association lists `List (String × α)`;
    `Map.set` replaces in place or appends (preserving JS insertion order),
    `Map.delete` removes the entry, `Map.size` is the list length and
    `Map.values()` enumerates values in insertion order.
  - JS strings are `String` (lists of characters); `.substring(0, 50)` is
    `List.take 50`, `.trim()` drops the JS whitespace set at both ends,
    `.replace(patternAngles, emptyString)` is a filter.
  - Timestamps (`Date.now()`, `new Date().toISOString()`) are an explicit
    `now : Nat` parameter threaded into the handlers.
  - Dynamically typed handler inputs (the `roomId`/`username` fields of a
    `join-room` payload) are a small `JSVal` sum covering the runtime type
    cases the code branches on.
  - An `emit` is recorded as an `Emission` whose recipient list is resolved
    eagerly against the socket.io room state at the moment of the emit:
    `socket.emit` targets the own socket, `socket.to(r).emit` targets the
    members of socket.io room `r` minus the sender, `io.to(r).emit` targets
    the members of socket.io room `r` (every socket is implicitly in the
    personal room named by its own id).
-/

namespace NoteCollab

abbrev ConnId := String
abbrev RoomId := String

/-- A dynamically-typed JS value, as far as the handlers inspect one. -/
inductive JSVal where
  | vstr (s : String)
  | vnum (n : Int)
  | vbool (b : Bool)
  | vnull
  | vundef
  | vobj
  deriving DecidableEq, Repr

def JSVal.asString : JSVal → String
  | .vstr s => s
  | _ => ""

/-- JSON-like values used for emission payloads. -/
inductive JVal where
  | jstr (s : String)
  | jnum (n : Nat)
  | jbool (b : Bool)
  | jnull
  | jarr (xs : List JVal)
  | jobj (fields : List (String × JVal))

/-! ### Association lists (the embedding of JS `Map`) -/

def alookup {α : Type} : List (String × α) → String → Option α
  | [], _ => none
  | p :: t, k => if p.1 = k then some p.2 else alookup t k

def aset {α : Type} : List (String × α) → String → α → List (String × α)
  | [], k, v => [(k, v)]
  | p :: t, k, v => if p.1 = k then (k, v) :: t else p :: aset t k v

def aerase {α : Type} : List (String × α) → String → List (String × α)
  | [], _ => []
  | p :: t, k => if p.1 = k then aerase t k else p :: aerase t k

/-! ### roomManager.js : palette, colors, validation, sanitization -/

/-- The fixed 12-entry user color palette (`USER_COLORS`). -/
def USER_COLORS : List String :=
  [ "#FF6B6B", "#4ECDC4", "#45B7D1", "#FFA07A", "#98D8C8", "#F7DC6F",
    "#BB8FCE", "#85C1E2", "#F8B739", "#52B788", "#E76F51", "#2A9D8F" ]

/-- `getUserColor(index)` : `USER_COLORS[index % USER_COLORS.length]`. -/
def getUserColor (index : Nat) : String :=
  USER_COLORS.getD (index % USER_COLORS.length) ""

/-- Character class of the room-id regular expression `[a-zA-Z0-9-_]`. -/
def isRoomChar (ch : Char) : Bool :=
  ( 'a' ≤ ch && ch ≤ 'z') || ( 'A' ≤ ch && ch ≤ 'Z') ||
  ( '0' ≤ ch && ch ≤ '9') || ch == '-' || ch == '_'

/-- `isValidRoomId(roomId)` : a string, non-empty, shorter than 100, matching
the anchored regular expression over `isRoomChar`; `false` on every
non-string value (the `typeof` test short-circuits, nothing throws). -/
def isValidRoomId : JSVal → Bool
  | .vstr s => decide (0 < s.length) && decide (s.length < 100) && s.toList.all isRoomChar
  | _ => false

/-- The whitespace set of the JS string `trim` method (WhiteSpace plus
LineTerminator code points). -/
def wsChars : List Char :=
  [ ' ', '\t', '\n', '\r', '\u000B', '\u000C', '\u00A0', '\u1680',
    '\u2000', '\u2001', '\u2002', '\u2003', '\u2004', '\u2005', '\u2006',
    '\u2007', '\u2008', '\u2009', '\u200A', '\u2028', '\u2029', '\u202F',
    '\u205F', '\u3000', '\uFEFF' ]

def isJSWS (ch : Char) : Bool := wsChars.contains ch

/-- The `replace` step of `sanitizeUsername`: remove every angle bracket. -/
def stripAnglesL (l : List Char) : List Char :=
  l.filter (fun ch => decide (ch ≠ '<' ∧ ch ≠ '>'))

/-- The `trim` step: drop JS whitespace from both ends. -/
def trimL (l : List Char) : List Char :=
  ((l.dropWhile isJSWS).reverse.dropWhile isJSWS).reverse

/-- `replace (angles) then trim then substring(0, 50)`. -/
def sanitizeCore (l : List Char) : List Char :=
  (trimL (stripAnglesL l)).take 50

/-- The fallback display name `Guest-` followed by the epoch milliseconds. -/
def guestName (now : Nat) : String := "Guest-" ++ toString now

/-- `sanitizeUsername(username)` : non-strings and the empty string (falsy)
fall back to a guest name; otherwise strip angle brackets, trim, truncate to
50, and fall back to a guest name when the result is empty. -/
def sanitizeUsername (v : JSVal) (now : Nat) : String :=
  match v with
  | .vstr u =>
    if u = "" then guestName now
    else
      let s := String.mk (sanitizeCore u.toList)
      if s = "" then guestName now else s
  | _ => guestName now

/-! ### The data model of the handlers -/

/-- The `userData` record stored per member of a room. -/
structure Member where
  id : ConnId
  username : String
  userId : String
  color : String
  joinedAt : Nat
  deriving DecidableEq, Repr

/-- `roomMetadata` entry: creation time and the first joiner. -/
structure RoomMeta where
  createdAt : Nat
  createdBy : ConnId
  deriving DecidableEq, Repr

/-- The shared mutable state: the `rooms` registry
(`Map roomId (Map socketId userData)`), the `roomMetadata` map, and the
socket.io room membership (each connected socket mapped to the list of
non-personal socket.io rooms it has joined). -/
structure ServerState where
  rooms : List (RoomId × List (ConnId × Member))
  roomMetadata : List (RoomId × RoomMeta)
  socketRooms : List (ConnId × List RoomId)
  deriving DecidableEq, Repr

/-- One outbound `emit`, with the recipient set resolved at emission time. -/
structure Emission where
  recips : List ConnId
  event : String
  payload : JVal

/-- The members of socket.io room `r`: every connected socket whose id is `r`
(personal room) or that has joined `r`. -/
def socketRoomMembers (s : ServerState) (r : RoomId) : List ConnId :=
  (s.socketRooms.filter (fun p => decide (p.1 = r ∨ r ∈ p.2))).map (fun p => p.1)

/-- `socket.join(r)` for connection `c` (JS `Set.add`: no-op when present,
appended otherwise). -/
def socketJoin (sr : List (ConnId × List RoomId)) (c : ConnId) (r : RoomId) :
    List (ConnId × List RoomId) :=
  match alookup sr c with
  | some l => aset sr c (if r ∈ l then l else l ++ [r])
  | none => sr

/-- `socket.leave(r)` for connection `c` (JS `Set.delete`). -/
def socketLeave (sr : List (ConnId × List RoomId)) (c : ConnId) (r : RoomId) :
    List (ConnId × List RoomId) :=
  match alookup sr c with
  | some l => aset sr c (l.filter (fun x => decide (x ≠ r)))
  | none => sr

/-- The JSON shape of a stored member, as emitted in payloads. -/
def memberJ (m : Member) : JVal :=
  .jobj [ ("id", .jstr m.id), ("username", .jstr m.username),
          ("userId", .jstr m.userId), ("color", .jstr m.color),
          ("joinedAt", .jnum m.joinedAt) ]

/-- `getRoomUsers(rooms, roomId)` : the member list of the room in insertion
order, or the empty list when the room is absent. -/
def getRoomUsers (rooms : List (RoomId × List (ConnId × Member))) (r : RoomId) : JVal :=
  .jarr (((alookup rooms r).getD []).map (fun p => memberJ p.2))

/-- `userId || socket.id` : the client-supplied id unless absent or falsy. -/
def jsOr (u : Option String) (d : String) : String :=
  match u with
  | some s => if s = "" then d else s
  | none => d

/-! ### socketHandlers.js -/

/-- `handleUserLeaving(io, socket, rooms, roomMetadata, roomId)` : when the
room exists and holds the socket, delete the member, emit `user-left` to the
others, then either broadcast the updated `room-users` list (room still
non-empty) or delete the room and its metadata (room empty); finally
`socket.leave(roomId)`. Otherwise do nothing at all. -/
def handleUserLeaving (s : ServerState) (c : ConnId) (roomId : RoomId) :
    ServerState × List Emission :=
  match alookup s.rooms roomId with
  | none => (s, [])
  | some room =>
    match alookup room c with
    | none => (s, [])
    | some user =>
      let room' := aerase room c
      let rooms1 := aset s.rooms roomId room'
      let s1 : ServerState := { s with rooms := rooms1 }
      let e1 : Emission :=
        ⟨(socketRoomMembers s1 roomId).filter (fun d => decide (d ≠ c)), "user-left",
          .jobj [("userId", .jstr c), ("username", .jstr user.username)]⟩
      if 0 < room'.length then
        let e2 : Emission := ⟨socketRoomMembers s1 roomId, "room-users", getRoomUsers rooms1 roomId⟩
        (⟨rooms1, s1.roomMetadata, socketLeave s1.socketRooms c roomId⟩, [e1, e2])
      else
        (⟨aerase rooms1 roomId, aerase s1.roomMetadata roomId,
          socketLeave s1.socketRooms c roomId⟩, [e1])

/-- The implicit-leave loop of the `join-room` handler: for each previously
joined socket.io room (a snapshot of `socket.rooms` minus the personal room),
`socket.leave(room)` then `handleUserLeaving(room)`, accumulating emissions
in loop order. -/
def leaveAll (c : ConnId) : ServerState → List RoomId → ServerState × List Emission
  | s, [] => (s, [])
  | s, r :: rest =>
    let s1 : ServerState := { s with socketRooms := socketLeave s.socketRooms c r }
    let p := handleUserLeaving s1 c r
    let q := leaveAll c p.1 rest
    (q.1, p.2 ++ q.2)

/-- The `error` emission of a rejected `join-room`. -/
def invalidRoomEmission (c : ConnId) : Emission :=
  ⟨[c], "error", .jobj [("message", .jstr "Invalid room ID")]⟩

/-- The body of the `join-room` handler after validation succeeded:
implicit leave of all previously joined rooms, `socket.join`, lazy room and
metadata creation, member insertion with the palette color indexed by the
pre-insertion room size, then the four emissions (roster to the joiner,
`user-joined` to the others, roster to the whole room, `join-success` to the
joiner). -/
def joinRoomValid (now : Nat) (s : ServerState) (c : ConnId) (roomId : RoomId)
    (u : JSVal) (i : Option String) : ServerState × List Emission :=
  let la := leaveAll c s ((alookup s.socketRooms c).getD [])
  let s2 : ServerState := { la.1 with socketRooms := socketJoin la.1.socketRooms c roomId }
  let createNew := (alookup s2.rooms roomId).isNone
  let rooms3 := if createNew then aset s2.rooms roomId [] else s2.rooms
  let meta3 := if createNew then aset s2.roomMetadata roomId ⟨now, c⟩ else s2.roomMetadata
  let room := (alookup rooms3 roomId).getD []
  let userData : Member := ⟨c, sanitizeUsername u now, jsOr i c, getUserColor room.length, now⟩
  let rooms4 := aset rooms3 roomId (aset room c userData)
  let s3 : ServerState := ⟨rooms4, meta3, s2.socketRooms⟩
  let allMem := socketRoomMembers s3 roomId
  (s3, la.2 ++
    [ ⟨[c], "room-users", getRoomUsers rooms4 roomId⟩,
      ⟨allMem.filter (fun d => decide (d ≠ c)), "user-joined", memberJ userData⟩,
      ⟨allMem, "room-users", getRoomUsers rooms4 roomId⟩,
      ⟨[c], "join-success",
        .jobj [ ("roomId", .jstr roomId), ("userData", memberJ userData),
                ("userCount", .jnum (aset room c userData).length) ]⟩ ])

/-- The `join-room` handler: validation first (rejection emits `error` to the
originating socket and changes nothing), then `joinRoomValid`. None of the
embedded operations can throw, so the catch branch of the source is dead. -/
def joinRoom (now : Nat) (s : ServerState) (c : ConnId) (roomIdV : JSVal)
    (u : JSVal) (i : Option String) : ServerState × List Emission :=
  if isValidRoomId roomIdV then joinRoomValid now s c roomIdV.asString u i
  else (s, [invalidRoomEmission c])

/-- Inbound socket events, one constructor per handler of
`setupSocketHandlers`. -/
inductive SEvent where
  | joinEv (roomId : JSVal) (username : JSVal) (userId : Option String)
  | yjsUpdate (roomId : RoomId) (update : JVal)
  | awarenessUpdate (roomId : RoomId) (update : JVal)
  | cursorUpdate (roomId : RoomId) (position : JVal)
  | typingEv (roomId : RoomId) (isTyping : Bool)
  | requestSync (roomId : RoomId)
  | sendSync (target : ConnId) (roomId : JVal) (state : JVal)
  | leaveRoom (roomId : RoomId)
  | disconnectEv

/-- `socket.to(r).emit` recipient set: socket.io room `r` minus the sender. -/
def othersIn (s : ServerState) (r : RoomId) (c : ConnId) : List ConnId :=
  (socketRoomMembers s r).filter (fun d => decide (d ≠ c))

/-- The `disconnect` sweep: iterate the room keys as of handler entry and run
`handleUserLeaving` on each room that still holds the socket. -/
def disconnectSweep (c : ConnId) : List RoomId → ServerState × List Emission →
    ServerState × List Emission
  | [], acc => acc
  | r :: rest, acc =>
    match alookup acc.1.rooms r with
    | some room =>
      if (alookup room c).isSome then
        let p := handleUserLeaving acc.1 c r
        disconnectSweep c rest (p.1, acc.2 ++ p.2)
      else disconnectSweep c rest acc
    | none => disconnectSweep c rest acc

/-- One inbound event of connection `c`, dispatched to its handler; returns
the post-handler state and the outbound emissions in order. -/
def applyEvent (now : Nat) (s : ServerState) (c : ConnId) : SEvent →
    ServerState × List Emission
  | .joinEv v u i => joinRoom now s c v u i
  | .yjsUpdate r upd =>
    (s, [⟨othersIn s r c, "yjs-update", .jobj [("update", upd), ("from", .jstr c)]⟩])
  | .awarenessUpdate r upd =>
    (s, [⟨othersIn s r c, "awareness-update", .jobj [("update", upd), ("from", .jstr c)]⟩])
  | .cursorUpdate r pos =>
    match alookup s.rooms r with
    | some room =>
      match alookup room c with
      | some ud =>
        (s, [⟨othersIn s r c, "cursor-update",
          .jobj [ ("userId", .jstr c), ("username", .jstr ud.username),
                  ("color", .jstr ud.color), ("position", pos) ]⟩])
      | none => (s, [])
    | none => (s, [])
  | .typingEv r b =>
    match alookup s.rooms r with
    | some room =>
      match alookup room c with
      | some ud =>
        (s, [⟨othersIn s r c, "user-typing",
          .jobj [ ("userId", .jstr c), ("username", .jstr ud.username),
                  ("isTyping", .jbool b) ]⟩])
      | none => (s, [])
    | none => (s, [])
  | .requestSync r =>
    (s, [⟨othersIn s r c, "sync-requested", .jobj [("from", .jstr c)]⟩])
  | .sendSync target rid st =>
    (s, [⟨socketRoomMembers s target, "receive-sync",
      .jobj [("from", .jstr c), ("roomId", rid), ("state", st)]⟩])
  | .leaveRoom r => handleUserLeaving s c r
  | .disconnectEv =>
    let s0 : ServerState :=
      ⟨s.rooms, s.roomMetadata, s.socketRooms.filter (fun p => decide (p.1 ≠ c))⟩
    disconnectSweep c (s.rooms.map (fun p => p.1)) (s0, [])

/-! ### Concrete states used by witnesses and counterexamples -/

def mAlice : Member := ⟨"c1", "alice", "c1", "#FF6B6B", 0⟩
def mBob : Member := ⟨"c2", "bob", "c2", "#4ECDC4", 0⟩

/-- c2 alone in room r1; c1 connected but in no room. -/
def wsA : ServerState :=
  ⟨[("r1", [("c2", mBob)])], [("r1", ⟨0, "c2"⟩)], [("c1", []), ("c2", ["r1"])]⟩

/-- c1 and c2 together in room r1. -/
def wsB : ServerState :=
  ⟨[("r1", [("c1", mAlice), ("c2", mBob)])], [("r1", ⟨0, "c1"⟩)],
   [("c1", ["r1"]), ("c2", ["r1"])]⟩

/-- The disconnect-path shape of `wsB`: c1 is still a registry member of r1,
but its socket.io membership entry is already gone (socket.io removes a
disconnecting socket from its rooms before the disconnect handler runs), as
produced by the `disconnectEv` filter right before the sweep calls
`handleUserLeaving`. -/
def wsD : ServerState :=
  ⟨[("r1", [("c1", mAlice), ("c2", mBob)])], [("r1", ⟨0, "c1"⟩)],
   [("c2", ["r1"])]⟩

/-- The failing input of claim C5: the character a, then 49 spaces, then b.
It contains no angle bracket; trimming keeps all 51 characters, truncation to
50 then leaves 49 trailing spaces, and the second sanitization pass trims
them away, shrinking the string to a single character. -/
def cexC5 : String := String.mk ( 'a' :: (List.replicate 49 ' ' ++ [ 'b']))

/-! ### Registry well-formedness : rooms exist iff non-empty, metadata in sync -/

/-- A registry is well formed when every registered room is non-empty and the
metadata map has exactly the registry's keys. -/
def RoomsWF (s : ServerState) : Prop :=
  (∀ r room, alookup s.rooms r = some room → room ≠ []) ∧
  (∀ r, (alookup s.rooms r).isSome = (alookup s.roomMetadata r).isSome)

/-! ### C1 : a connection is in exactly its most recently joined valid room -/

/-- Registry membership of a connection: the room exists and holds it. -/
def inRoomP (s : ServerState) (c : ConnId) (r : RoomId) : Prop :=
  ∃ room, alookup s.rooms r = some room ∧ (alookup room c).isSome = true

/-- One join-room event of a connection, with its clock reading. -/
structure JoinEv where
  roomId : JSVal
  username : JSVal
  userId : Option String
  now : Nat

/-- Fold a sequence of join-room events of connection c through the handler. -/
def processJoins (c : ConnId) : ServerState → List JoinEv → ServerState
  | s, [] => s
  | s, e :: rest => processJoins c (joinRoom e.now s c e.roomId e.username e.userId).1 rest

/-- The most recent valid roomId of the event sequence, seeded by cur. -/
def lastValidFrom : Option RoomId → List JoinEv → Option RoomId
  | cur, [] => cur
  | cur, e :: rest =>
    lastValidFrom (if isValidRoomId e.roomId then some e.roomId.asString else cur) rest

def curT : Option RoomId → List RoomId
  | some r => [r]
  | none => []

/-- The per-connection invariant tying the socket.io membership and the
registry membership of c to its current room. -/
def JoinInv (s : ServerState) (c : ConnId) (cur : Option RoomId) : Prop :=
  alookup s.socketRooms c = some (curT cur) ∧
  (∀ r room, alookup s.rooms r = some room → (alookup room c).isSome = true →
    cur = some r) ∧
  (∀ r, cur = some r → inRoomP s c r)

/-- An empty server with the single fresh connection c1. -/
def wsC : ServerState := ⟨[], [], [("c1", [])]⟩

/-- An invalid join followed by two valid joins: r1 then r2. -/
def evsC1 : List JoinEv :=
  [ ⟨.vstr "bad room!", .vstr "x", none, 0⟩,
    ⟨.vstr "r1", .vstr "alice", none, 1⟩,
    ⟨.vstr "r2", .vstr "alice", none, 2⟩ ]

/-! ### Theorems -/

@[simp] theorem alookup_nil {α : Type} (k : String) :
    alookup ([] : List (String × α)) k = none := rfl

theorem alookup_aset_self {α : Type} (l : List (String × α)) (k : String) (v : α) :
    alookup (aset l k v) k = some v := by
  induction l with
  | nil => simp [aset, alookup]
  | cons p t ih =>
    by_cases h : p.1 = k
    · simp [aset, h, alookup]
    · simp [aset, h, alookup, ih]

theorem alookup_aset_ne {α : Type} (l : List (String × α)) (k k' : String) (v : α)
    (h : k' ≠ k) : alookup (aset l k v) k' = alookup l k' := by
  have hkk : ¬ (k = k') := fun e => h e.symm
  induction l with
  | nil => simp [aset, alookup, hkk]
  | cons p t ih =>
    by_cases hp : p.1 = k
    · have hpk : ¬ (p.1 = k') := by rw [hp]; exact hkk
      simp [aset, hp, alookup, hkk, hpk]
    · simp only [aset, if_neg hp, alookup]
      by_cases hp' : p.1 = k'
      · simp [hp']
      · simp [hp', ih]

theorem alookup_aerase_self {α : Type} (l : List (String × α)) (k : String) :
    alookup (aerase l k) k = none := by
  induction l with
  | nil => simp [aerase]
  | cons p t ih =>
    by_cases h : p.1 = k
    · simp [aerase, h, ih]
    · simp [aerase, h, alookup, ih]

theorem alookup_aerase_ne {α : Type} (l : List (String × α)) (k k' : String)
    (h : k' ≠ k) : alookup (aerase l k) k' = alookup l k' := by
  have hkk : ¬ (k = k') := fun e => h e.symm
  induction l with
  | nil => simp [aerase]
  | cons p t ih =>
    by_cases hp : p.1 = k
    · have hpk : ¬ (p.1 = k') := by rw [hp]; exact hkk
      simp [aerase, hp, alookup, ih, hpk, hkk]
    · by_cases hp' : p.1 = k'
      · simp [aerase, hp, alookup, hp', h]
      · simp [aerase, hp, alookup, hp', ih]

theorem aset_ne_nil {α : Type} (l : List (String × α)) (k : String) (v : α) :
    aset l k v ≠ [] := by
  cases l with
  | nil => simp [aset]
  | cons p t =>
    by_cases h : p.1 = k <;> simp [aset, h]

theorem alookup_some_mem {α : Type} {l : List (String × α)} {k : String} {v : α}
    (h : alookup l k = some v) : (k, v) ∈ l := by
  induction l with
  | nil => simp [alookup] at h
  | cons p t ih =>
    rcases p with ⟨a, b⟩
    by_cases hp : a = k
    · subst hp
      simp [alookup] at h
      subst h
      exact List.mem_cons_self _ _
    · simp [alookup, hp] at h
      exact List.mem_cons_of_mem _ (ih h)

theorem alookup_isSome_iff {α : Type} (l : List (String × α)) (k : String) :
    (alookup l k).isSome ↔ ∃ v, (k, v) ∈ l := by
  constructor
  · intro h
    match hv : alookup l k with
    | some v => exact ⟨v, alookup_some_mem hv⟩
    | none => rw [hv] at h; simp at h
  · rintro ⟨v, hv⟩
    induction l with
    | nil => simp at hv
    | cons p t ih =>
      rcases List.mem_cons.mp hv with heq | hmem
      · simp [alookup, ← heq]
      · by_cases hp : p.1 = k
        · simp [alookup, hp]
        · simp [alookup, hp]
          exact ih hmem

/-! ### C10 : isValidRoomId is total and accepts only strings -/

/-- Claim C10: `isValidRoomId` is total and returns `false` (rather than
throwing) on every non-string input — `null`, `undefined`, numbers, booleans,
objects — and returns `true` only on string inputs. -/
theorem isValidRoomId_strings_only :
    (∀ v : JSVal, isValidRoomId v = true → ∃ s, v = .vstr s) ∧
    isValidRoomId .vnull = false ∧ isValidRoomId .vundef = false ∧
    (∀ n : Int, isValidRoomId (.vnum n) = false) ∧
    (∀ b : Bool, isValidRoomId (.vbool b) = false) ∧
    isValidRoomId .vobj = false := by
  refine ⟨?_, rfl, rfl, fun n => rfl, fun b => rfl, rfl⟩
  intro v h
  cases v with
  | vstr s => exact ⟨s, rfl⟩
  | vnum n => simp [isValidRoomId] at h
  | vbool b => simp [isValidRoomId] at h
  | vnull => simp [isValidRoomId] at h
  | vundef => simp [isValidRoomId] at h
  | vobj => simp [isValidRoomId] at h

/-- Witness for C10 at the concrete accepted input `"room-1"`. -/
theorem isValidRoomId_strings_only_w : ∃ s, JSVal.vstr "room-1" = JSVal.vstr s :=
  isValidRoomId_strings_only.1 (.vstr "room-1") (by decide)

/-! ### C3 : rejected join — error to the sender only, no mutation -/

/-- Claim C3: a `join-room` whose `roomId` fails validation emits exactly one
`error` event with message Invalid room ID to the originating connection
only, and leaves the whole server state — registry, metadata, socket.io
membership — exactly as it was. -/
theorem invalid_join_rejected (now : Nat) (s : ServerState) (c : ConnId)
    (v : JSVal) (u : JSVal) (i : Option String)
    (h : isValidRoomId v = false) :
    joinRoom now s c v u i =
      (s, [⟨[c], "error", .jobj [("message", .jstr "Invalid room ID")]⟩]) := by
  simp [joinRoom, h, invalidRoomEmission]

/-- Witness for C3: the spec's own rejection example, roomId "bad room!". -/
theorem invalid_join_rejected_w :
    joinRoom 0 wsA "c1" (.vstr "bad room!") (.vstr "x") none =
      (wsA, [⟨["c1"], "error", .jobj [("message", .jstr "Invalid room ID")]⟩]) :=
  invalid_join_rejected 0 wsA "c1" (.vstr "bad room!") (.vstr "x") none (by decide)

/-! ### C9 : leave-room of an absent room or non-member is a no-op -/

/-- Claim C9: a `leave-room` naming a room that is absent from the registry,
or that does not hold the sender as a member, changes nothing and emits
nothing. -/
theorem leave_room_noop (now : Nat) (s : ServerState) (c : ConnId) (r : RoomId)
    (h : ∀ room, alookup s.rooms r = some room → alookup room c = none) :
    applyEvent now s c (.leaveRoom r) = (s, []) := by
  show handleUserLeaving s c r = (s, [])
  unfold handleUserLeaving
  cases hr : alookup s.rooms r with
  | none => rfl
  | some room => simp [h room hr]

/-- Witness for C9: c1 sends `leave-room r1` while only c2 is in r1. -/
theorem leave_room_noop_w : applyEvent 3 wsA "c1" (.leaveRoom "r1") = (wsA, []) :=
  leave_room_noop 3 wsA "c1" "r1" (by
    intro room hr
    simp [wsA, alookup] at hr
    subst hr
    decide)

/-! ### C8 : send-sync is an unchecked unicast -/

/-- Claim C8: `send-sync` relays `receive-sync` with the sender id, the
`roomId` and the opaque `state` to the socket.io room named by `to`, with no
membership check on either side and no state change; when no socket has
joined a room named `to`, the recipient set is exactly the target connection
when it is connected, and empty — a silent no-op — when it is not. -/
theorem send_sync_unicast (now : Nat) (s : ServerState) (c : ConnId)
    (target : ConnId) (rid st : JVal) :
    applyEvent now s c (.sendSync target rid st) =
      (s, [⟨socketRoomMembers s target, "receive-sync",
        .jobj [("from", .jstr c), ("roomId", rid), ("state", st)]⟩]) ∧
    ((∀ p, p ∈ s.socketRooms → target ∉ p.2) →
      ∀ d, d ∈ socketRoomMembers s target ↔
        (d = target ∧ (alookup s.socketRooms d).isSome)) := by
  refine ⟨rfl, ?_⟩
  intro hno d
  simp only [socketRoomMembers, List.mem_map, List.mem_filter]
  constructor
  · rintro ⟨p, ⟨hp, hcond⟩, hd⟩
    simp at hcond
    rcases hcond with h1 | h2
    · refine ⟨by rw [← hd, h1], ?_⟩
      rw [alookup_isSome_iff]
      exact ⟨p.2, by rw [← hd]; exact hp⟩
    · exact absurd h2 (hno p hp)
  · rintro ⟨hd, hsome⟩
    rw [alookup_isSome_iff] at hsome
    rcases hsome with ⟨l, hl⟩
    exact ⟨(d, l), ⟨hl, by simp [hd]⟩, rfl⟩

/-- Witness for C8: target c9 is not connected in wsA, so the recipient set
of the relayed `receive-sync` is empty. -/
theorem send_sync_unicast_w :
    ("c9" ∈ socketRoomMembers wsA "c9" ↔
      ("c9" = "c9" ∧ (alookup wsA.socketRooms "c9").isSome)) :=
  (send_sync_unicast 0 wsA "c1" "c9" .jnull .jnull).2 (by decide) "c9"

/-! ### C5 : sanitizeUsername idempotence -/

theorem dropWhile_self_idem {α : Type} (p : α → Bool) (l : List α) :
    List.dropWhile p (List.dropWhile p l) = List.dropWhile p l := by
  induction l with
  | nil => rfl
  | cons a t ih =>
    cases h : p a with
    | true => simp [List.dropWhile_cons, h, ih]
    | false => simp [List.dropWhile_cons, h]

theorem dropWhile_exists_prefix {α : Type} (p : α → Bool) (l : List α) :
    ∃ t, t ++ List.dropWhile p l = l := by
  induction l with
  | nil => exact ⟨[], rfl⟩
  | cons a t ih =>
    cases h : p a with
    | true =>
      rcases ih with ⟨t0, ht⟩
      exact ⟨a :: t0, by simp [List.dropWhile_cons, h, ht]⟩
    | false => exact ⟨[], by simp [List.dropWhile_cons, h]⟩

theorem mem_dropWhile_mem {α : Type} {p : α → Bool} {l : List α} {a : α}
    (h : a ∈ List.dropWhile p l) : a ∈ l := by
  rcases dropWhile_exists_prefix p l with ⟨t, ht⟩
  rw [← ht]
  exact List.mem_append_right t h

theorem head_dropWhile_false {α : Type} {p : α → Bool} {l : List α} {a : α}
    (h : (List.dropWhile p l).head? = some a) : p a = false := by
  induction l with
  | nil => simp [List.dropWhile] at h
  | cons b t ih =>
    cases hb : p b with
    | true =>
      rw [List.dropWhile_cons, if_pos (by simp [hb])] at h
      exact ih h
    | false =>
      rw [List.dropWhile_cons, if_neg (by simp [hb])] at h
      simp at h
      rw [← h]
      exact hb

theorem dropWhile_eq_self_of_head {α : Type} {p : α → Bool} {l : List α} {a : α}
    (h : l.head? = some a) (hp : p a = false) : List.dropWhile p l = l := by
  cases l with
  | nil => simp at h
  | cons b t =>
    simp at h
    rw [List.dropWhile_cons, if_neg (by rw [h]; simp [hp])]

theorem mem_trimL {l : List Char} {a : Char} (h : a ∈ trimL l) : a ∈ l := by
  unfold trimL at h
  rw [List.mem_reverse] at h
  have h1 := mem_dropWhile_mem h
  rw [List.mem_reverse] at h1
  exact mem_dropWhile_mem h1

theorem trimL_idem (l : List Char) : trimL (trimL l) = trimL l := by
  unfold trimL
  have hstep : (((l.dropWhile isJSWS).reverse.dropWhile isJSWS).reverse).dropWhile isJSWS =
      ((l.dropWhile isJSWS).reverse.dropWhile isJSWS).reverse := by
    cases hB : (((l.dropWhile isJSWS).reverse.dropWhile isJSWS).reverse).head? with
    | none =>
      rw [List.head?_eq_none_iff] at hB
      rw [hB]
      rfl
    | some a =>
      refine dropWhile_eq_self_of_head hB ?_
      rw [List.head?_reverse] at hB
      rcases dropWhile_exists_prefix isJSWS (l.dropWhile isJSWS).reverse with ⟨t, ht⟩
      have hBne : (l.dropWhile isJSWS).reverse.dropWhile isJSWS ≠ [] := by
        intro hnil
        rw [hnil] at hB
        simp at hB
      have hlast : ((l.dropWhile isJSWS).reverse).getLast? = some a := by
        rw [← ht, List.getLast?_append_of_ne_nil _ hBne]
        exact hB
      rw [List.getLast?_reverse] at hlast
      exact head_dropWhile_false hlast
  rw [hstep, List.reverse_reverse, dropWhile_self_idem]

theorem mk_eq_empty_iff (l : List Char) : String.mk l = "" ↔ l = [] := by
  constructor
  · intro h
    have : (String.mk l).data = ("" : String).data := by rw [h]
    simpa using this
  · intro h
    rw [h]

/-- Counterexample to claim C5 as stated: `cexC5` contains no angle brackets,
yet `sanitizeUsername` is not idempotent on it. -/
theorem sanitize_idem_cex :
    (∀ ch ∈ cexC5.toList, ch ≠ '<' ∧ ch ≠ '>') ∧
    sanitizeUsername (.vstr (sanitizeUsername (.vstr cexC5) 0)) 0 ≠
      sanitizeUsername (.vstr cexC5) 0 := by
  constructor
  · decide
  · decide

/-- Claim C5 as amended: for every string without angle brackets whose
trimmed form is non-empty and at most 50 characters long (so that truncation
neither empties it nor cuts it at interior whitespace), `sanitizeUsername` is
idempotent, at any pair of clock readings. -/
theorem sanitize_idem_trimmed (x : String) (t1 t2 : Nat)
    (hang : ∀ ch ∈ x.toList, ch ≠ '<' ∧ ch ≠ '>')
    (hlen : (trimL x.toList).length ≤ 50)
    (hne : trimL x.toList ≠ []) :
    sanitizeUsername (.vstr (sanitizeUsername (.vstr x) t1)) t2 =
      sanitizeUsername (.vstr x) t1 := by
  have hstrip : stripAnglesL x.toList = x.toList := by
    rw [stripAnglesL, List.filter_eq_self]
    intro a ha
    simpa using hang a ha
  have hcore : sanitizeCore x.toList = trimL x.toList := by
    rw [sanitizeCore, hstrip, List.take_of_length_le hlen]
  have hxne : ¬ (x = "") := by
    intro h
    apply hne
    rw [h]
    rfl
  have hs1 : sanitizeUsername (.vstr x) t1 = String.mk (trimL x.toList) := by
    rw [sanitizeUsername]
    simp only [hxne, if_false, hcore]
    rw [if_neg (by rw [mk_eq_empty_iff]; exact hne)]
  rw [hs1]
  have hdata : (String.mk (trimL x.toList)).toList = trimL x.toList := rfl
  have hang2 : ∀ ch ∈ trimL x.toList, ch ≠ '<' ∧ ch ≠ '>' :=
    fun ch hch => hang ch (mem_trimL hch)
  have hstrip2 : stripAnglesL (trimL x.toList) = trimL x.toList := by
    rw [stripAnglesL, List.filter_eq_self]
    intro a ha
    simpa using hang2 a ha
  have hcore2 : sanitizeCore (trimL x.toList) = trimL x.toList := by
    rw [sanitizeCore, hstrip2, trimL_idem, List.take_of_length_le hlen]
  rw [sanitizeUsername]
  simp only [hdata, hcore2]
  rw [if_neg (by rw [mk_eq_empty_iff]; exact hne)]
  rw [if_neg (by rw [mk_eq_empty_iff]; exact hne)]

/-- Witness for the amended C5 at the concrete input two spaces, bob, two
spaces, which trims to the three-character string bob. -/
theorem sanitize_idem_trimmed_w :
    sanitizeUsername (.vstr (sanitizeUsername (.vstr "  bob  ") 3)) 4 =
      sanitizeUsername (.vstr "  bob  ") 3 :=
  sanitize_idem_trimmed "  bob  " 3 4 (by decide) (by decide) (by decide)

/-! ### C4 : the user-left payload -/

theorem alookup_aerase_isSome {α : Type} (l : List (String × α)) (k k' : String) :
    (alookup (aerase l k) k').isSome ↔ ((alookup l k').isSome ∧ ¬ (k' = k)) := by
  by_cases h : k' = k
  · subst h
    simp [alookup_aerase_self]
  · simp [alookup_aerase_ne l k k' h, h]

/-- Counterexample to claim C4 as stated: when c1 leaves room r1 of `wsB`,
the `user-left` event delivered to the remaining member c2 carries the
fields `userId` and `username` — there is no field named `connectionId`. -/
theorem user_left_payload_cex :
    (applyEvent 1 wsB "c1" (.leaveRoom "r1")).2.head?.map
        (fun e => (e.recips, e.event, e.payload)) =
      some (["c2"], "user-left",
        .jobj [("userId", .jstr "c1"), ("username", .jstr "alice")]) ∧
    ∀ fields, JVal.jobj [("userId", JVal.jstr "c1"), ("username", JVal.jstr "alice")] =
        .jobj fields → "connectionId" ∉ fields.map (fun p => p.1) := by
  constructor
  · rfl
  · intro fields h
    injection h with h2
    rw [← h2]
    decide

/-- Claim C4 as amended: whenever a member leaves a room it is present in
(`handleUserLeaving`, reached from both `leave-room` and `disconnect`), the
first emission is a `user-left` event whose payload is an object with field
`userId` holding the leaving connection identifier and field `username`
holding the member's username, delivered exactly to the remaining members of
the room. The socket.io/registry agreement hypothesis constrains only the
connections other than the leaver, because `socket.to` excludes the sender:
it is satisfied on the explicit leave-room path (where the leaver is still
in the socket.io room) and on the disconnect path (where socket.io has
already removed it) alike. -/
theorem user_left_payload_userId (s : ServerState) (c : ConnId) (roomId : RoomId)
    (room : List (ConnId × Member)) (user : Member)
    (hr : alookup s.rooms roomId = some room)
    (hc : alookup room c = some user)
    (hsio : ∀ d, ¬ (d = c) →
      (d ∈ socketRoomMembers s roomId ↔ (alookup room d).isSome)) :
    ∃ recips rest,
      (handleUserLeaving s c roomId).2 =
        ⟨recips, "user-left",
          .jobj [("userId", .jstr c), ("username", .jstr user.username)]⟩ :: rest ∧
      ∀ d, d ∈ recips ↔ (alookup (aerase room c) d).isSome := by
  have hmem : ∀ d, (d ∈ (socketRoomMembers s roomId).filter (fun d => decide (d ≠ c))) ↔
      (alookup (aerase room c) d).isSome := by
    intro d
    rw [List.mem_filter, alookup_aerase_isSome]
    by_cases hd : d = c
    · subst hd
      simp
    · simp [hsio d hd, hd]
  simp only [handleUserLeaving, hr, hc]
  by_cases hlen : 0 < (aerase room c).length
  · rw [if_pos hlen]
    exact ⟨_, _, rfl, hmem⟩
  · rw [if_neg hlen]
    exact ⟨_, _, rfl, hmem⟩

/-- Witness for the amended C4 at the concrete state `wsD`: the sweep's
`handleUserLeaving` call of the disconnect path, where c1 is still a
registry member of r1 but its socket.io entry is already gone. -/
theorem user_left_payload_userId_w :
    ∃ recips rest,
      (handleUserLeaving wsD "c1" "r1").2 =
        ⟨recips, "user-left",
          .jobj [("userId", .jstr "c1"), ("username", .jstr "alice")]⟩ :: rest ∧
      ∀ d, d ∈ recips ↔ (alookup (aerase [("c1", mAlice), ("c2", mBob)] "c1") d).isSome :=
  user_left_payload_userId wsD "c1" "r1" [("c1", mAlice), ("c2", mBob)] mAlice rfl rfl
    (by
      intro d hd
      simp only [wsD, socketRoomMembers, mAlice, mBob]
      by_cases h2 : d = "c2"
      · subst h2
        decide
      · have g1 : ¬ ("c1" = d) := fun e => hd e.symm
        have g2 : ¬ ("c2" = d) := fun e => h2 e.symm
        simp [alookup, List.mem_filter, hd, h2, g1, g2])

/-! ### C6 : color assignment -/

theorem alookup_isSome_ne_nil {α : Type} {l : List (String × α)} {k : String}
    (h : (alookup l k).isSome) : l ≠ [] := by
  intro hnil
  rw [hnil] at h
  simp at h

/-- Claim C6: on a successful join by a connection currently in no room, the
stored member's color is the palette entry indexed by the room's member
count at the instant of the join, modulo the palette size (so the Nth member
of a freshly created room, 0-indexed, receives palette entry N mod 12); and
when another member leaves the room, the stored member record — its color
included — is unchanged. -/
theorem join_color_assignment :
    (∀ now s c (roomId : String) u i,
      isValidRoomId (.vstr roomId) = true →
      alookup s.socketRooms c = some [] →
      ∃ room' m,
        alookup (joinRoom now s c (.vstr roomId) u i).1.rooms roomId = some room' ∧
        alookup room' c = some m ∧
        m.color = USER_COLORS.getD
          ((((alookup s.rooms roomId).getD []).length) % USER_COLORS.length) "") ∧
    (∀ s d roomId c room, ¬ (c = d) →
      alookup s.rooms roomId = some room →
      (alookup room c).isSome →
      ∃ room', alookup (handleUserLeaving s d roomId).1.rooms roomId = some room' ∧
        alookup room' c = alookup room c) := by
  constructor
  · intro now s c roomId u i hval hsr
    have h1 : joinRoom now s c (.vstr roomId) u i = joinRoomValid now s c roomId u i := by
      simp [joinRoom, hval, JSVal.asString]
    rw [h1]
    simp only [joinRoomValid, hsr, Option.getD_some, leaveAll]
    refine ⟨_, _, alookup_aset_self _ _ _, alookup_aset_self _ _ _, ?_⟩
    simp only [getUserColor]
    cases hnew : alookup s.rooms roomId with
    | none => simp [hnew, alookup_aset_self]
    | some room0 => simp [hnew]
  · intro s d roomId c room hne hr hcs
    cases hd : alookup room d with
    | none =>
      simp only [handleUserLeaving, hr, hd]
      exact ⟨room, rfl, rfl⟩
    | some du =>
      have hsurv : (alookup (aerase room d) c).isSome := by
        rw [alookup_aerase_isSome]
        exact ⟨hcs, hne⟩
      have hlen : 0 < (aerase room d).length :=
        List.length_pos.mpr (alookup_isSome_ne_nil hsurv)
      simp only [handleUserLeaving, hr, hd, if_pos hlen]
      exact ⟨aerase room d, alookup_aset_self _ _ _, alookup_aerase_ne room d c hne⟩

/-- Witness for C6: in `wsA` the fresh connection c1 joins r1, which already
holds one member, and is stored with the second palette color. -/
theorem join_color_assignment_w :
    ∃ room' m,
      alookup (joinRoom 9 wsA "c1" (.vstr "r1") (.vstr "alice") none).1.rooms "r1" =
        some room' ∧
      alookup room' "c1" = some m ∧
      m.color = USER_COLORS.getD
        ((((alookup wsA.rooms "r1").getD []).length) % USER_COLORS.length) "" :=
  join_color_assignment.1 9 wsA "c1" "r1" (.vstr "alice") none (by decide) (by decide)

/-! ### Effect lemmas for the leave path and the implicit-leave loop -/

theorem socketLeave_alookup_self (sr : List (ConnId × List RoomId)) (c : ConnId)
    (r : RoomId) (l : List RoomId) (h : alookup sr c = some l) :
    alookup (socketLeave sr c r) c = some (l.filter (fun x => decide (x ≠ r))) := by
  simp [socketLeave, h, alookup_aset_self]

theorem socketJoin_alookup_self (sr : List (ConnId × List RoomId)) (c : ConnId)
    (r : RoomId) (l : List RoomId) (h : alookup sr c = some l) :
    alookup (socketJoin sr c r) c = some (if r ∈ l then l else l ++ [r]) := by
  simp [socketJoin, h, alookup_aset_self]

theorem handleUserLeaving_socketRooms (s : ServerState) (c : ConnId) (r : RoomId) :
    (handleUserLeaving s c r).1.socketRooms = s.socketRooms ∨
    (handleUserLeaving s c r).1.socketRooms = socketLeave s.socketRooms c r := by
  cases h1 : alookup s.rooms r with
  | none =>
    left
    simp [handleUserLeaving, h1]
  | some room =>
    cases h2 : alookup room c with
    | none =>
      left
      simp [handleUserLeaving, h1, h2]
    | some u =>
      by_cases hlen : 0 < (aerase room c).length
      · right
        simp [handleUserLeaving, h1, h2, hlen]
      · right
        simp [handleUserLeaving, h1, h2, hlen]

theorem mem_filter_ne (l : List String) (r x : String) :
    x ∈ l.filter (fun y => decide (y ≠ r)) ↔ (x ∈ l ∧ ¬ (x = r)) := by
  rw [List.mem_filter]
  simp

theorem leaveAll_socketRooms (c : ConnId) :
    ∀ (todo : List RoomId) (s : ServerState) (l : List RoomId),
    alookup s.socketRooms c = some l →
    ∃ l', alookup (leaveAll c s todo).1.socketRooms c = some l' ∧
      (∀ x, x ∈ l' ↔ (x ∈ l ∧ x ∉ todo)) := by
  intro todo
  induction todo with
  | nil =>
    intro s l h
    exact ⟨l, h, fun x => by simp⟩
  | cons r rest ih =>
    intro s l h
    have h1 : alookup (socketLeave s.socketRooms c r) c =
        some (l.filter (fun x => decide (x ≠ r))) :=
      socketLeave_alookup_self s.socketRooms c r l h
    have h2 : ∃ l0, alookup (handleUserLeaving
          ⟨s.rooms, s.roomMetadata, socketLeave s.socketRooms c r⟩ c r).1.socketRooms c =
        some l0 ∧ (∀ x, x ∈ l0 ↔ (x ∈ l ∧ ¬ (x = r))) := by
      rcases handleUserLeaving_socketRooms
          ⟨s.rooms, s.roomMetadata, socketLeave s.socketRooms c r⟩ c r with hd | hd
      · refine ⟨l.filter (fun x => decide (x ≠ r)), ?_, fun x => mem_filter_ne l r x⟩
        rw [hd]
        exact h1
      · refine ⟨(l.filter (fun x => decide (x ≠ r))).filter (fun x => decide (x ≠ r)), ?_, ?_⟩
        · rw [hd]
          exact socketLeave_alookup_self _ c r _ h1
        · intro x
          rw [mem_filter_ne, mem_filter_ne]
          tauto
    rcases h2 with ⟨l0, hl0, hiff0⟩
    rcases ih (handleUserLeaving
        ⟨s.rooms, s.roomMetadata, socketLeave s.socketRooms c r⟩ c r).1 l0 hl0 with
      ⟨l', hl', hiff⟩
    refine ⟨l', hl', ?_⟩
    intro x
    rw [hiff x]
    rw [hiff0 x]
    simp only [List.mem_cons]
    tauto

theorem handleUserLeaving_rooms_self (s : ServerState) (c : ConnId) (r : RoomId) :
    ∀ room', alookup (handleUserLeaving s c r).1.rooms r = some room' →
      alookup room' c = none := by
  intro room' h
  cases h1 : alookup s.rooms r with
  | none =>
    simp only [handleUserLeaving, h1] at h
    exact Option.noConfusion h
  | some room =>
    cases h2 : alookup room c with
    | none =>
      simp only [handleUserLeaving, h1, h2] at h
      injection h with h3
      rw [← h3]
      exact h2
    | some u =>
      by_cases hlen : 0 < (aerase room c).length
      · simp only [handleUserLeaving, h1, h2, if_pos hlen] at h
        rw [alookup_aset_self] at h
        injection h with h3
        rw [← h3]
        exact alookup_aerase_self room c
      · simp only [handleUserLeaving, h1, h2, if_neg hlen] at h
        rw [alookup_aerase_self] at h
        exact Option.noConfusion h

theorem handleUserLeaving_rooms_ne (s : ServerState) (c : ConnId) (r r' : RoomId)
    (hne : ¬ (r' = r)) :
    alookup (handleUserLeaving s c r).1.rooms r' = alookup s.rooms r' := by
  cases h1 : alookup s.rooms r with
  | none => simp [handleUserLeaving, h1]
  | some room =>
    cases h2 : alookup room c with
    | none => simp [handleUserLeaving, h1, h2]
    | some u =>
      by_cases hlen : 0 < (aerase room c).length
      · simp only [handleUserLeaving, h1, h2, if_pos hlen]
        exact alookup_aset_ne s.rooms r r' (aerase room c) hne
      · simp only [handleUserLeaving, h1, h2, if_neg hlen]
        rw [alookup_aerase_ne _ r r' hne]
        exact alookup_aset_ne s.rooms r r' (aerase room c) hne

theorem leaveAll_clears (c : ConnId) :
    ∀ (todo : List RoomId) (s : ServerState),
    (∀ r room, alookup s.rooms r = some room → (alookup room c).isSome → r ∈ todo) →
    ∀ r room, alookup (leaveAll c s todo).1.rooms r = some room →
      alookup room c = none := by
  intro todo
  induction todo with
  | nil =>
    intro s H r room h
    cases hr : alookup room c with
    | none => rfl
    | some u =>
      have := H r room h (by rw [hr]; rfl)
      simp at this
  | cons r0 rest ih =>
    intro s H r room h
    have H' : ∀ r room, alookup (handleUserLeaving
          ⟨s.rooms, s.roomMetadata, socketLeave s.socketRooms c r0⟩ c r0).1.rooms r =
          some room → (alookup room c).isSome → r ∈ rest := by
      intro r1 room1 hp hi
      by_cases hr0 : r1 = r0
      · subst hr0
        have := handleUserLeaving_rooms_self _ c r1 room1 hp
        rw [this] at hi
        simp at hi
      · rw [handleUserLeaving_rooms_ne _ c r0 r1 hr0] at hp
        have := H r1 room1 hp hi
        rcases List.mem_cons.mp this with he | hm
        · exact absurd he hr0
        · exact hm
    exact ih _ H' r room h

/-- Validation dispatch of the join handler, rejected case. -/
theorem joinRoom_invalid_eq (now : Nat) (s : ServerState) (c : ConnId)
    (v : JSVal) (u : JSVal) (i : Option String) (h : isValidRoomId v = false) :
    joinRoom now s c v u i =
      (s, [⟨[c], "error", .jobj [("message", .jstr "Invalid room ID")]⟩]) := by
  simp [joinRoom, h, invalidRoomEmission]

/-- Validation dispatch of the join handler, accepted case. -/
theorem joinRoom_valid_eq (now : Nat) (s : ServerState) (c : ConnId)
    (v : JSVal) (u : JSVal) (i : Option String) (h : isValidRoomId v = true) :
    joinRoom now s c v u i = joinRoomValid now s c v.asString u i := by
  simp [joinRoom, h]

theorem handleUserLeaving_WF (s : ServerState) (c : ConnId) (r : RoomId)
    (hwf : RoomsWF s) : RoomsWF (handleUserLeaving s c r).1 := by
  cases h1 : alookup s.rooms r with
  | none =>
    have hst : (handleUserLeaving s c r).1 = s := by simp [handleUserLeaving, h1]
    rw [hst]
    exact hwf
  | some room =>
    cases h2 : alookup room c with
    | none =>
      have hst : (handleUserLeaving s c r).1 = s := by simp [handleUserLeaving, h1, h2]
      rw [hst]
      exact hwf
    | some u =>
      by_cases hlen : 0 < (aerase room c).length
      · have hst : (handleUserLeaving s c r).1 =
            ⟨aset s.rooms r (aerase room c), s.roomMetadata,
              socketLeave s.socketRooms c r⟩ := by
          simp [handleUserLeaving, h1, h2, hlen]
        rw [hst]
        constructor
        · intro r' room' h'
          by_cases hr : r' = r
          · subst hr
            rw [alookup_aset_self] at h'
            injection h' with h3
            rw [← h3]
            intro hnil
            rw [hnil] at hlen
            simp at hlen
          · rw [alookup_aset_ne _ _ _ _ hr] at h'
            exact hwf.1 r' room' h'
        · intro r'
          by_cases hr : r' = r
          · subst hr
            rw [alookup_aset_self]
            have hm : (alookup s.roomMetadata r').isSome = true := by
              rw [← hwf.2 r', h1]
              rfl
            rw [hm]
            rfl
          · rw [alookup_aset_ne _ _ _ _ hr]
            exact hwf.2 r'
      · have hst : (handleUserLeaving s c r).1 =
            ⟨aerase (aset s.rooms r (aerase room c)) r, aerase s.roomMetadata r,
              socketLeave s.socketRooms c r⟩ := by
          simp [handleUserLeaving, h1, h2, hlen]
        rw [hst]
        constructor
        · intro r' room' h'
          by_cases hr : r' = r
          · subst hr
            rw [alookup_aerase_self] at h'
            exact Option.noConfusion h'
          · rw [alookup_aerase_ne _ _ _ hr, alookup_aset_ne _ _ _ _ hr] at h'
            exact hwf.1 r' room' h'
        · intro r'
          by_cases hr : r' = r
          · subst hr
            rw [alookup_aerase_self, alookup_aerase_self]
            rfl
          · rw [alookup_aerase_ne _ _ _ hr, alookup_aset_ne _ _ _ _ hr,
              alookup_aerase_ne _ _ _ hr]
            exact hwf.2 r'

theorem leaveAll_WF (c : ConnId) : ∀ (todo : List RoomId) (s : ServerState),
    RoomsWF s → RoomsWF (leaveAll c s todo).1 := by
  intro todo
  induction todo with
  | nil => intro s h; exact h
  | cons r rest ih =>
    intro s h
    have h1 : RoomsWF ⟨s.rooms, s.roomMetadata, socketLeave s.socketRooms c r⟩ :=
      ⟨h.1, h.2⟩
    exact ih _ (handleUserLeaving_WF _ c r h1)

theorem disconnectSweep_WF (c : ConnId) : ∀ (todo : List RoomId)
    (acc : ServerState × List Emission), RoomsWF acc.1 →
    RoomsWF (disconnectSweep c todo acc).1 := by
  intro todo
  induction todo with
  | nil => intro acc h; exact h
  | cons r rest ih =>
    intro acc h
    cases h1 : alookup acc.1.rooms r with
    | none =>
      simp only [disconnectSweep, h1]
      exact ih acc h
    | some room =>
      by_cases h2 : (alookup room c).isSome = true
      · simp only [disconnectSweep, h1, h2, if_true]
        exact ih _ (handleUserLeaving_WF _ c r h)
      · simp only [disconnectSweep, h1, h2, if_false]
        exact ih acc h

theorem joinRoomValid_WF (now : Nat) (s : ServerState) (c : ConnId) (roomId : RoomId)
    (u : JSVal) (i : Option String) (hwf : RoomsWF s) :
    RoomsWF (joinRoomValid now s c roomId u i).1 := by
  have hL : RoomsWF (leaveAll c s ((alookup s.socketRooms c).getD [])).1 :=
    leaveAll_WF c _ s hwf
  simp only [joinRoomValid]
  cases hnew : alookup (leaveAll c s ((alookup s.socketRooms c).getD [])).1.rooms roomId with
  | none =>
    simp only [hnew, Option.isNone_none, if_true, alookup_aset_self, Option.getD_some]
    constructor
    · intro r' room' h'
      by_cases hr : r' = roomId
      · subst hr
        rw [alookup_aset_self] at h'
        injection h' with h3
        rw [← h3]
        exact aset_ne_nil _ _ _
      · rw [alookup_aset_ne _ _ _ _ hr, alookup_aset_ne _ _ _ _ hr] at h'
        exact hL.1 r' room' h'
    · intro r'
      by_cases hr : r' = roomId
      · subst hr
        rw [alookup_aset_self, alookup_aset_self]
        rfl
      · rw [alookup_aset_ne _ _ _ _ hr, alookup_aset_ne _ _ _ _ hr,
          alookup_aset_ne _ _ _ _ hr]
        exact hL.2 r'
  | some room0 =>
    simp only [hnew, Option.isNone_some, Bool.false_eq_true, if_false, Option.getD_some]
    constructor
    · intro r' room' h'
      by_cases hr : r' = roomId
      · subst hr
        rw [alookup_aset_self] at h'
        injection h' with h3
        rw [← h3]
        exact aset_ne_nil _ _ _
      · rw [alookup_aset_ne _ _ _ _ hr] at h'
        exact hL.1 r' room' h'
    · intro r'
      by_cases hr : r' = roomId
      · subst hr
        rw [alookup_aset_self, ← hL.2 r', hnew]
        rfl
      · rw [alookup_aset_ne _ _ _ _ hr]
        exact hL.2 r'

/-! ### C2 : room existence invariant -/

/-- Claim C2: every handler preserves the invariant that a room is registered
iff it has at least one member and iff it has metadata; removing the last
member deletes the room and its metadata in the same step; and a successful
join under an unknown roomId creates the room with fresh metadata and
inserts the joining member. -/
theorem room_registry_invariants :
    (∀ now s c e, RoomsWF s → RoomsWF (applyEvent now s c e).1) ∧
    (∀ s c roomId u, alookup s.rooms roomId = some [(c, u)] →
      alookup (handleUserLeaving s c roomId).1.rooms roomId = none ∧
      alookup (handleUserLeaving s c roomId).1.roomMetadata roomId = none) ∧
    (∀ now s c (roomId : String) u i, isValidRoomId (.vstr roomId) = true →
      alookup s.socketRooms c = some [] →
      alookup s.rooms roomId = none →
      (∃ m, alookup (joinRoom now s c (.vstr roomId) u i).1.rooms roomId = some [(c, m)]) ∧
      alookup (joinRoom now s c (.vstr roomId) u i).1.roomMetadata roomId =
        some ⟨now, c⟩) := by
  refine ⟨?_, ?_, ?_⟩
  · intro now s c e hwf
    cases e with
    | joinEv v u i =>
      cases hval : isValidRoomId v with
      | true =>
        rw [show applyEvent now s c (.joinEv v u i) = joinRoom now s c v u i from rfl,
          joinRoom_valid_eq now s c v u i hval]
        exact joinRoomValid_WF now s c v.asString u i hwf
      | false =>
        rw [show applyEvent now s c (.joinEv v u i) = joinRoom now s c v u i from rfl,
          joinRoom_invalid_eq now s c v u i hval]
        exact hwf
    | yjsUpdate r upd => exact hwf
    | awarenessUpdate r upd => exact hwf
    | cursorUpdate r pos =>
      cases h1 : alookup s.rooms r with
      | none => simp only [applyEvent, h1]; exact hwf
      | some room =>
        cases h2 : alookup room c with
        | none => simp only [applyEvent, h1, h2]; exact hwf
        | some ud => simp only [applyEvent, h1, h2]; exact hwf
    | typingEv r b =>
      cases h1 : alookup s.rooms r with
      | none => simp only [applyEvent, h1]; exact hwf
      | some room =>
        cases h2 : alookup room c with
        | none => simp only [applyEvent, h1, h2]; exact hwf
        | some ud => simp only [applyEvent, h1, h2]; exact hwf
    | requestSync r => exact hwf
    | sendSync target rid st => exact hwf
    | leaveRoom r => exact handleUserLeaving_WF s c r hwf
    | disconnectEv =>
      exact disconnectSweep_WF c _ _ ⟨hwf.1, hwf.2⟩
  · intro s c roomId u hr
    have hc : alookup [(c, u)] c = some u := by simp [alookup]
    have her : aerase [(c, u)] c = [] := by simp [aerase]
    have hlen : ¬ 0 < (aerase [(c, u)] c).length := by rw [her]; simp
    constructor
    · simp only [handleUserLeaving, hr, hc, if_neg hlen]
      exact alookup_aerase_self _ _
    · simp only [handleUserLeaving, hr, hc, if_neg hlen]
      exact alookup_aerase_self _ _
  · intro now s c roomId u i hval hsr hnew
    rw [joinRoom_valid_eq now s c (.vstr roomId) u i hval]
    simp only [JSVal.asString]
    simp only [joinRoomValid, hsr, Option.getD_some, leaveAll]
    simp only [hnew, Option.isNone_none, if_true, alookup_aset_self, Option.getD_some]
    exact ⟨⟨_, rfl⟩, trivial⟩

/-- Witness for C2: a join into the well-formed state `wsA` preserves the
registry invariant. -/
theorem room_registry_invariants_w :
    RoomsWF (applyEvent 0 wsA "c1" (.joinEv (.vstr "r2") (.vstr "zed") none)).1 :=
  room_registry_invariants.1 0 wsA "c1" (.joinEv (.vstr "r2") (.vstr "zed") none)
    (by
      constructor
      · intro r room h
        by_cases hr : "r1" = r
        · simp [wsA, alookup, hr] at h
          rw [← h]
          simp
        · simp [wsA, alookup, hr] at h
      · intro r
        by_cases hr : "r1" = r
        · simp [wsA, alookup, hr]
        · simp [wsA, alookup, hr])

/-! ### C7 : the four emissions of a successful join -/

/-- Claim C7: a successful join emits, after the membership mutation and
after the implicit-leave emissions, exactly four events in order — the
post-mutation roster to the joiner only, `user-joined` with the new member to
every other connection of the room, the same post-mutation roster to the
whole room including the joiner, and finally `join-success` with the roomId,
the member record and the post-mutation member count to the joiner only. -/
theorem join_broadcast_sequence (now : Nat) (s : ServerState) (c : ConnId)
    (v : JSVal) (u : JSVal) (i : Option String) (st : ServerState)
    (ems : List Emission)
    (hval : isValidRoomId v = true)
    (hconn : (alookup s.socketRooms c).isSome)
    (heq : joinRoom now s c v u i = (st, ems)) :
    ∃ pre m allMem n,
      ems = pre ++
        [ ⟨[c], "room-users", getRoomUsers st.rooms v.asString⟩,
          ⟨allMem.filter (fun d => decide (d ≠ c)), "user-joined", memberJ m⟩,
          ⟨allMem, "room-users", getRoomUsers st.rooms v.asString⟩,
          ⟨[c], "join-success",
            .jobj [ ("roomId", .jstr v.asString), ("userData", memberJ m),
                    ("userCount", .jnum n) ]⟩ ] ∧
      allMem = socketRoomMembers st v.asString ∧
      c ∈ allMem ∧
      alookup ((alookup st.rooms v.asString).getD []) c = some m ∧
      n = ((alookup st.rooms v.asString).getD []).length := by
  rw [joinRoom_valid_eq now s c v u i hval] at heq
  simp only [joinRoomValid] at heq
  injection heq with hst hems
  subst hst
  subst hems
  refine ⟨_, _, _, _, rfl, rfl, ?_, ?_, ?_⟩
  · cases hl : alookup s.socketRooms c with
    | none =>
      rw [hl] at hconn
      simp at hconn
    | some l =>
      simp only [Option.getD_some]
      rcases leaveAll_socketRooms c l s l hl with ⟨l', hl', _⟩
      have hJ := socketJoin_alookup_self _ c v.asString l' hl'
      have hin : v.asString ∈ (if v.asString ∈ l' then l' else l' ++ [v.asString]) := by
        by_cases hc : v.asString ∈ l'
        · rw [if_pos hc]
          exact hc
        · rw [if_neg hc]
          exact List.mem_append_right l' (by simp)
      simp only [socketRoomMembers, List.mem_map]
      refine ⟨(c, if v.asString ∈ l' then l' else l' ++ [v.asString]), ?_, rfl⟩
      rw [List.mem_filter]
      exact ⟨alookup_some_mem hJ, by simp [hin]⟩
  · simp [alookup_aset_self]
  · simp [alookup_aset_self]

/-- Witness for C7: the fresh connection c1 joins r1 of `wsA`. -/
theorem join_broadcast_sequence_w :
    ∃ pre m allMem n,
      (joinRoom 9 wsA "c1" (.vstr "r1") (.vstr "alice") none).2 = pre ++
        [ ⟨["c1"], "room-users",
            getRoomUsers (joinRoom 9 wsA "c1" (.vstr "r1") (.vstr "alice") none).1.rooms
              (JSVal.vstr "r1").asString⟩,
          ⟨allMem.filter (fun d => decide (d ≠ "c1")), "user-joined", memberJ m⟩,
          ⟨allMem, "room-users",
            getRoomUsers (joinRoom 9 wsA "c1" (.vstr "r1") (.vstr "alice") none).1.rooms
              (JSVal.vstr "r1").asString⟩,
          ⟨["c1"], "join-success",
            .jobj [ ("roomId", .jstr (JSVal.vstr "r1").asString), ("userData", memberJ m),
                    ("userCount", .jnum n) ]⟩ ] ∧
      allMem = socketRoomMembers (joinRoom 9 wsA "c1" (.vstr "r1") (.vstr "alice") none).1
        (JSVal.vstr "r1").asString ∧
      "c1" ∈ allMem ∧
      alookup ((alookup (joinRoom 9 wsA "c1" (.vstr "r1") (.vstr "alice") none).1.rooms
        (JSVal.vstr "r1").asString).getD []) "c1" = some m ∧
      n = ((alookup (joinRoom 9 wsA "c1" (.vstr "r1") (.vstr "alice") none).1.rooms
        (JSVal.vstr "r1").asString).getD []).length :=
  join_broadcast_sequence 9 wsA "c1" (.vstr "r1") (.vstr "alice") none _ _
    (by decide) (by decide) rfl

theorem joinRoomValid_step (now : Nat) (s : ServerState) (c : ConnId) (roomId : RoomId)
    (u : JSVal) (i : Option String) (l : List RoomId)
    (hsr : alookup s.socketRooms c = some l)
    (hsub : ∀ r room, alookup s.rooms r = some room → (alookup room c).isSome = true → r ∈ l) :
    alookup (joinRoomValid now s c roomId u i).1.socketRooms c = some [roomId] ∧
    (∀ r, inRoomP (joinRoomValid now s c roomId u i).1 c r ↔ r = roomId) := by
  have hclear : ∀ r room, alookup (leaveAll c s l).1.rooms r = some room →
      alookup room c = none := leaveAll_clears c l s hsub
  rcases leaveAll_socketRooms c l s l hsr with ⟨l2, hl2, hiff⟩
  have hl2nil : l2 = [] := by
    rw [List.eq_nil_iff_forall_not_mem]
    intro x hx
    have h3 := (hiff x).mp hx
    exact h3.2 h3.1
  subst hl2nil
  have hJ := socketJoin_alookup_self _ c roomId [] hl2
  simp only [List.not_mem_nil, if_false, List.nil_append] at hJ
  constructor
  · simp only [joinRoomValid, hsr, Option.getD_some]
    exact hJ
  · intro r
    simp only [joinRoomValid, hsr, Option.getD_some]
    constructor
    · rintro ⟨room, hroom, hsome⟩
      by_cases hr : r = roomId
      · exact hr
      · exfalso
        rw [alookup_aset_ne _ _ _ _ hr] at hroom
        cases hnew : alookup (leaveAll c s l).1.rooms roomId with
        | none =>
          simp only [hnew, Option.isNone_none, if_true] at hroom
          rw [alookup_aset_ne _ _ _ _ hr] at hroom
          rw [hclear r room hroom] at hsome
          simp at hsome
        | some room0 =>
          simp only [hnew, Option.isNone_some, Bool.false_eq_true, if_false] at hroom
          rw [hclear r room hroom] at hsome
          simp at hsome
    · intro hr
      subst hr
      refine ⟨_, alookup_aset_self _ _ _, ?_⟩
      rw [alookup_aset_self]
      rfl

theorem joins_exact_helper (c : ConnId) : ∀ (evs : List JoinEv) (s : ServerState)
    (cur : Option RoomId), JoinInv s c cur →
    JoinInv (processJoins c s evs) c (lastValidFrom cur evs) := by
  intro evs
  induction evs with
  | nil => intro s cur h; exact h
  | cons e rest ih =>
    intro s cur h
    by_cases hval : isValidRoomId e.roomId = true
    · have hsub : ∀ r room, alookup s.rooms r = some room →
          (alookup room c).isSome = true → r ∈ curT cur := by
        intro r room hr hs
        rw [h.2.1 r room hr hs]
        simp [curT]
      have hstep := joinRoomValid_step e.now s c e.roomId.asString e.username e.userId
        (curT cur) h.1 hsub
      have hinv2 : JoinInv (joinRoom e.now s c e.roomId e.username e.userId).1 c
          (some e.roomId.asString) := by
        rw [joinRoom_valid_eq _ _ _ _ _ _ hval]
        refine ⟨hstep.1, ?_, ?_⟩
        · intro r room hr hs
          rw [(hstep.2 r).mp ⟨room, hr, hs⟩]
        · intro r hr
          injection hr with h2
          rw [← h2]
          exact (hstep.2 _).mpr rfl
      have hrest := ih _ _ hinv2
      simp only [processJoins, lastValidFrom, hval, if_true]
      exact hrest
    · have hb : isValidRoomId e.roomId = false := by
        revert hval
        cases isValidRoomId e.roomId <;> simp
      have hinv2 : JoinInv (joinRoom e.now s c e.roomId e.username e.userId).1 c cur := by
        rw [joinRoom_invalid_eq e.now s c e.roomId e.username e.userId hb]
        exact h
      have hrest := ih _ _ hinv2
      simp only [processJoins, lastValidFrom, hb, Bool.false_eq_true, if_false]
      exact hrest

/-- Claim C1: starting from a freshly connected socket in no room, after any
sequence of its join-room events the connection is a registry member of
exactly the most recently joined valid room, and of no room when every join
was invalid (each valid join removes the connection from every previously
joined room before inserting it into the new one). -/
theorem join_sequence_single_active_room (c : ConnId) (s : ServerState)
    (evs : List JoinEv)
    (hconn : alookup s.socketRooms c = some [])
    (hfree : ∀ r room, alookup s.rooms r = some room → alookup room c = none) :
    ∀ r, inRoomP (processJoins c s evs) c r ↔ lastValidFrom none evs = some r := by
  have hinv : JoinInv s c none := by
    refine ⟨hconn, ?_, ?_⟩
    · intro r room hr hs
      rw [hfree r room hr] at hs
      simp at hs
    · intro r hr
      exact Option.noConfusion hr
  have H := joins_exact_helper c evs s none hinv
  intro r
  constructor
  · rintro ⟨room, hr, hs⟩
    exact H.2.1 r room hr hs
  · intro hlast
    exact H.2.2 r hlast

/-- Witness for C1 at the concrete sequence `evsC1`: membership in r2 is
equivalent to r2 being the last valid join. -/
theorem join_sequence_single_active_room_w :
    (inRoomP (processJoins "c1" wsC evsC1) "c1" "r2" ↔
      lastValidFrom none evsC1 = some "r2") :=
  join_sequence_single_active_room "c1" wsC evsC1 rfl
    (fun _r _room h => Option.noConfusion h) "r2"

end NoteCollab
